import Mathlib

/-!
Shallow embedding of the immutable-data-structures repository
(`src/linkedlist/LinkedList.h`, `src/Utils.h`, `src/deque/Deque.h`).

A `LinkedList<T>` value is abstracted by its logical sequence, a Lean
`List α`: the C++ representation (shared_ptr chain whose terminal node
carries `std::nullopt`) is observationally a finite sequence, and every
operation of the public API is translated node-for-node from the source.
C++ exceptions are modelled with `Except CppError`; the error kind records
which exception class the source throws.
-/

/-- The exception classes thrown by the source.
`emptyCollection` stands for the `std::runtime_error` / `std::invalid_argument`
guards ("Cannot call ... on an empty list"), `indexOutOfRange` for
`std::out_of_range`, and `badOptionalAccess` for `std::bad_optional_access`,
which is thrown when `value_.value()` is read on a disengaged
`std::optional` (the empty node). -/
inductive CppError where
  | emptyCollection
  | indexOutOfRange
  | badOptionalAccess
deriving DecidableEq, Repr

namespace LinkedList

variable {α : Type}

/-- `LinkedList<T>::IsEmpty`: true on the nullptr / empty-node list. -/
def IsEmpty (l : List α) : Bool := l.isEmpty

/-- `LinkedList<T>::Empty`: the empty list node. -/
def Empty : List α := []

/-- `LinkedList<T>::Head`: head value; throws `runtime_error` on empty. -/
def Head : List α → Except CppError α
  | [] => .error .emptyCollection
  | a :: _ => .ok a

/-- `LinkedList<T>::Tail`: tail pointer; throws `runtime_error` on empty. -/
def Tail : List α → Except CppError (List α)
  | [] => .error .emptyCollection
  | _ :: t => .ok t

/-- `LinkedList<T>::IsSingle`: non-empty and the tail is empty. -/
def IsSingle : List α → Bool
  | [] => false
  | _ :: t => t.isEmpty

/-- `LinkedList<T>::Length`: iterative count of non-empty nodes. -/
def Length : List α → Nat
  | [] => 0
  | _ :: t => Length t + 1

/-- `LinkedList<T>::Cons`: prepend an element. -/
def Cons (element : α) (l : List α) : List α := element :: l

/-- `LinkedList<T>::Single`: `Cons(element, Empty())`. -/
def Single (element : α) : List α := Cons element Empty

/-- `LinkedList<T>::Append`: the loop rebuilds `listA`'s nodes in order
behind a dummy head and then splices `listB` in as the final tail. -/
def Append : List α → List α → List α
  | [], listB => listB
  | a :: t, listB => a :: Append t listB

/-- `LinkedList<T>::Snoc`: `Append(list, Single(element))`. -/
def Snoc (l : List α) (element : α) : List α := Append l (Single element)

/-- `LinkedList<T>::Init`: the loop copies nodes while `!IsSingle(cur)`.
On the empty node `IsSingle` is false, so the body runs and reads
`cur->value_.value()` of the disengaged optional, throwing
`std::bad_optional_access`; there is no `IsEmpty` guard in the source. -/
def Init : List α → Except CppError (List α)
  | [] => .error .badOptionalAccess
  | [_] => .ok []
  | a :: b :: t => (Init (b :: t)).map (fun r => a :: r)

/-- `LinkedList<T>::Last`: throws `runtime_error` on empty, then walks to
the single suffix and returns its value. -/
def Last : List α → Except CppError α
  | [] => .error .emptyCollection
  | [a] => .ok a
  | _ :: b :: t => Last (b :: t)

/-- The `while (index >= 0 && !IsEmpty(cur))` loop body of
`LinkedList<T>::Index`; the `index >= 0` conjunct is invariantly true,
since the loop is entered with a non-negative index and returns before the
index would go negative. -/
def IndexLoop : List α → Int → Except CppError α
  | [], _ => .error .indexOutOfRange
  | a :: t, index => if index = 0 then .ok a else IndexLoop t (index - 1)

/-- `LinkedList<T>::Index`: negative indices throw `std::out_of_range`
up front; running off either the index or the list throws it as well. -/
def Index (l : List α) (index : Int) : Except CppError α :=
  if index < 0 then .error .indexOutOfRange else IndexLoop l index

end LinkedList

/-- `SplitAt` from `src/Utils.h`: throws `std::out_of_range` for `n < 0`;
returns `(Empty(), list)` for `n == 0`; otherwise recurses on
`SplitAt(n - 1, list.Tail())` (so `Tail` throws `runtime_error` when the
recursion runs past the end of the list) and conses `list.Head()` onto the
returned first component. -/
def SplitAt {α : Type} (n : Int) (list : List α) :
    Except CppError (List α × List α) :=
  if n < 0 then .error .indexOutOfRange
  else if n = 0 then .ok (LinkedList.Empty, list)
  else
    match list with
    | [] => .error .emptyCollection
    | a :: t =>
      match SplitAt (n - 1) t with
      | .error e => .error e
      | .ok (listA, listB) => .ok (LinkedList.Cons a listA, listB)
termination_by list.length

/-- The accumulation loop of `Reverse` from `src/Utils.h`. -/
def ReverseLoop {α : Type} : List α → List α → List α
  | [], reversed_list => reversed_list
  | a :: t, reversed_list => ReverseLoop t (LinkedList.Cons a reversed_list)

/-- `Reverse` from `src/Utils.h`: iterative accumulation via `Cons`. -/
def Reverse {α : Type} (list : List α) : List α :=
  ReverseLoop list LinkedList.Empty

/-- `Deque<T>` from `src/deque/Deque.h`: a pair of linked lists, the back
conceptually reversed. -/
structure Deque (α : Type) where
  front_ : List α
  back_ : List α
deriving DecidableEq, Repr

namespace Deque

variable {α : Type}

/-- `Deque<T>::IsEmpty`: both sides empty. -/
def IsEmpty (d : Deque α) : Bool :=
  LinkedList.IsEmpty d.front_ && LinkedList.IsEmpty d.back_

/-- `Deque<T>::IsSingle`: non-empty and one of the sides is empty. -/
def IsSingle (d : Deque α) : Bool :=
  !d.IsEmpty && (LinkedList.IsEmpty d.front_ || LinkedList.IsEmpty d.back_)

/-- `Deque<T>::Length`: sum of the two sides' lengths. -/
def Length (d : Deque α) : Nat :=
  LinkedList.Length d.front_ + LinkedList.Length d.back_

/-- `Deque<T>::RebalancedIfNecessary`, translated guard-for-guard from the
source: return `*this` when `IsEmpty() || IsSingle() || (!front_.IsEmpty()
&& !back_.IsEmpty())`, otherwise split the non-empty side at half its
length (C++ `int` division on non-negative values) and reverse one half
onto the depleted side. -/
def RebalancedIfNecessary (d : Deque α) : Except CppError (Deque α) :=
  if d.IsEmpty || d.IsSingle ||
      (!LinkedList.IsEmpty d.front_ && !LinkedList.IsEmpty d.back_) then
    .ok d
  else if LinkedList.IsEmpty d.front_ then
    match SplitAt ((LinkedList.Length d.back_ : Int) / 2) d.back_ with
    | .error e => .error e
    | .ok (new_back, new_reversed_front) =>
      .ok ⟨Reverse new_reversed_front, new_back⟩
  else
    match SplitAt ((LinkedList.Length d.front_ : Int) / 2) d.front_ with
    | .error e => .error e
    | .ok (new_front, new_reversed_back) =>
      .ok ⟨new_front, Reverse new_reversed_back⟩

/-- `Deque<T>::FromList`: split at `Length(list) / 2` and reverse the
second half into the back side. -/
def FromList (list : List α) : Except CppError (Deque α) :=
  match SplitAt ((LinkedList.Length list : Int) / 2) list with
  | .error e => .error e
  | .ok (listA, listB) => .ok ⟨listA, Reverse listB⟩

/-- `Deque<T>::ToList`: `front_.Append(Reverse(back_))`. -/
def ToList (d : Deque α) : List α :=
  LinkedList.Append d.front_ (Reverse d.back_)

/-- `Deque<T>::Empty`. -/
def Empty : Deque α := ⟨LinkedList.Empty, LinkedList.Empty⟩

/-- `Deque<T>::Single`. -/
def Single (element : α) : Deque α := ⟨LinkedList.Single element, LinkedList.Empty⟩

/-- `Deque<T>::Cons`: when the back is empty the new element becomes the
sole front element and the old front moves to the back; otherwise prepend
to the front. -/
def Cons (d : Deque α) (element : α) : Deque α :=
  if LinkedList.IsEmpty d.back_ then ⟨LinkedList.Single element, d.front_⟩
  else ⟨LinkedList.Cons element d.front_, d.back_⟩

/-- `Deque<T>::Snoc`: symmetric to `Cons`. -/
def Snoc (d : Deque α) (element : α) : Deque α :=
  if LinkedList.IsEmpty d.front_ then ⟨d.back_, LinkedList.Single element⟩
  else ⟨d.front_, LinkedList.Cons element d.back_⟩

/-- `Deque<T>::Head`: throws `std::invalid_argument` when empty; front's
head when the front is non-empty, else the back's last. -/
def Head (d : Deque α) : Except CppError α :=
  if d.IsEmpty then .error .emptyCollection
  else if !LinkedList.IsEmpty d.front_ then LinkedList.Head d.front_
  else LinkedList.Last d.back_

/-- `Deque<T>::Last`: symmetric to `Head`. -/
def Last (d : Deque α) : Except CppError α :=
  if d.IsEmpty then .error .emptyCollection
  else if !LinkedList.IsEmpty d.back_ then LinkedList.Head d.back_
  else LinkedList.Last d.front_

/-- `Deque<T>::Tail`: throws `std::invalid_argument` when empty; returns
`Empty()` when either side is empty; otherwise drops the front's head and
calls `RebalancedIfNecessary`. -/
def Tail (d : Deque α) : Except CppError (Deque α) :=
  if d.IsEmpty then .error .emptyCollection
  else if LinkedList.IsEmpty d.front_ || LinkedList.IsEmpty d.back_ then .ok Empty
  else
    match LinkedList.Tail d.front_ with
    | .error e => .error e
    | .ok t => RebalancedIfNecessary ⟨t, d.back_⟩

/-- `Deque<T>::Init`: symmetric to `Tail`, dropping the back's head. -/
def Init (d : Deque α) : Except CppError (Deque α) :=
  if d.IsEmpty then .error .emptyCollection
  else if LinkedList.IsEmpty d.front_ || LinkedList.IsEmpty d.back_ then .ok Empty
  else
    match LinkedList.Tail d.back_ with
    | .error e => .error e
    | .ok t => RebalancedIfNecessary ⟨d.front_, t⟩

/-- `Deque<T>::Append`: `FromList(ToList().Append(listB.ToList()))`. -/
def Append (d listB : Deque α) : Except CppError (Deque α) :=
  FromList (LinkedList.Append d.ToList listB.ToList)

/-- `Deque<T>::Index`: negative throws `std::out_of_range`; within the
front by position; within the back at logical position
`back_length - 1 - (index - front_length)`; past the end throws. -/
def Index (d : Deque α) (index : Int) : Except CppError α :=
  if index < 0 then .error .indexOutOfRange
  else
    let front_length : Int := LinkedList.Length d.front_
    if index < front_length then LinkedList.Index d.front_ index
    else
      let index2 := index - front_length
      let back_length : Int := LinkedList.Length d.back_
      if index2 < back_length then
        LinkedList.Index d.back_ (back_length - 1 - index2)
      else .error .indexOutOfRange

/-- The balance invariant stated by the spec: both internal sides are
non-empty, or the deque holds at most one element in total. -/
def BalanceInv (d : Deque α) : Prop :=
  (d.front_ ≠ [] ∧ d.back_ ≠ []) ∨ d.Length ≤ 1

instance (d : Deque α) [DecidableEq α] : Decidable (BalanceInv d) := by
  unfold BalanceInv
  exact inferInstance

end Deque

instance {ε σ : Type} [DecidableEq ε] [DecidableEq σ] : DecidableEq (Except ε σ)
  | .error a, .error b =>
    if h : a = b then .isTrue (by rw [h])
    else .isFalse (by intro hc; cases hc; exact h rfl)
  | .error _, .ok _ => .isFalse (by intro hc; cases hc)
  | .ok _, .error _ => .isFalse (by intro hc; cases hc)
  | .ok a, .ok b =>
    if h : a = b then .isTrue (by rw [h])
    else .isFalse (by intro hc; cases hc; exact h rfl)

/-- The deques reachable from `Empty()`, `Single(x)` or `FromList(list)`
by the public operations `Cons`, `Snoc`, `Tail`, `Init` and `Append`. -/
inductive Reachable {α : Type} : Deque α → Prop
  | empty : Reachable Deque.Empty
  | single (x : α) : Reachable (Deque.Single x)
  | fromList (l : List α) (d : Deque α) :
      Deque.FromList l = .ok d → Reachable d
  | cons (d : Deque α) (x : α) : Reachable d → Reachable (d.Cons x)
  | snoc (d : Deque α) (x : α) : Reachable d → Reachable (d.Snoc x)
  | tail (d d' : Deque α) : Reachable d → d.Tail = .ok d' → Reachable d'
  | init (d d' : Deque α) : Reachable d → d.Init = .ok d' → Reachable d'
  | append (d e d' : Deque α) :
      Reachable d → Reachable e → d.Append e = .ok d' → Reachable d'

/-! ### Basic lemmas about the list layer -/

namespace LinkedList

variable {α : Type}

theorem Append_eq_append (a b : List α) : Append a b = a ++ b := by
  induction a with
  | nil => rfl
  | cons x t ih => simp [Append, ih]

theorem Length_eq_length (l : List α) : Length l = l.length := by
  induction l with
  | nil => rfl
  | cons x t ih => simp [Length, ih]

theorem IsEmpty_iff (l : List α) : IsEmpty l = true ↔ l = [] := by
  cases l <;> simp [IsEmpty]

theorem Init_of_ne_nil (l : List α) (h : l ≠ []) : Init l = .ok l.dropLast := by
  induction l with
  | nil => exact absurd rfl h
  | cons a t ih =>
    cases t with
    | nil => rfl
    | cons b t2 =>
      simp only [Init, ih (by simp), Except.map]
      rfl

theorem IndexLoop_ok (l : List α) (k : Nat) (h : k < l.length) :
    IndexLoop l (k : Int) = .ok (l.get ⟨k, h⟩) := by
  induction l generalizing k with
  | nil => simp at h
  | cons a t ih =>
    cases k with
    | zero => rfl
    | succ m =>
      have hcast : ((m : Nat) + 1 : Int) - 1 = (m : Int) := by omega
      simp only [IndexLoop, Nat.cast_succ]
      rw [if_neg (by omega), hcast, ih m (by simpa using h)]
      rfl

theorem IndexLoop_oob (l : List α) (i : Int) (h : (l.length : Int) ≤ i) :
    IndexLoop l i = .error .indexOutOfRange := by
  induction l generalizing i with
  | nil => rfl
  | cons a t ih =>
    simp only [List.length_cons] at h
    simp only [IndexLoop]
    rw [if_neg (by push_cast at h; omega)]
    exact ih (i - 1) (by push_cast at h ⊢; omega)

theorem Index_ok (l : List α) (k : Nat) (h : k < l.length) :
    Index l (k : Int) = .ok (l.get ⟨k, h⟩) := by
  rw [Index, if_neg (by omega), IndexLoop_ok l k h]

theorem Index_error_iff (l : List α) (i : Int) :
    Index l i = .error .indexOutOfRange ↔ i < 0 ∨ (l.length : Int) ≤ i := by
  unfold Index
  by_cases hneg : i < 0
  · simp [hneg]
  · rw [if_neg hneg]
    constructor
    · intro herr
      by_contra hcon
      push_neg at hcon
      obtain ⟨-, hlt⟩ := hcon
      have h0 : 0 ≤ i := by omega
      have hk : i.toNat < l.length := by omega
      rw [← Int.toNat_of_nonneg h0, IndexLoop_ok l i.toNat hk] at herr
      exact Except.noConfusion herr
    · intro hor
      rcases hor with hlt | hge
      · omega
      · exact IndexLoop_oob l i hge

end LinkedList

theorem ReverseLoop_eq (l acc : List α) : ReverseLoop l acc = l.reverse ++ acc := by
  induction l generalizing acc with
  | nil => rfl
  | cons a t ih => simp [ReverseLoop, LinkedList.Cons, ih]

theorem Reverse_eq_reverse (l : List α) : Reverse l = l.reverse := by
  simp [Reverse, ReverseLoop_eq, LinkedList.Empty]

theorem SplitAt_ok (k : Nat) (l : List α) (h : k ≤ l.length) :
    SplitAt (k : Int) l = .ok (l.take k, l.drop k) := by
  induction k generalizing l with
  | zero => rw [Nat.cast_zero, SplitAt.eq_def]; simp [LinkedList.Empty]
  | succ m ih =>
    cases l with
    | nil => simp at h
    | cons a t =>
      have hm : m ≤ t.length := by simpa using h
      have hcast : ((m : Nat) + 1 : Int) - 1 = (m : Int) := by omega
      rw [SplitAt.eq_def, if_neg (by omega), if_neg (by omega)]
      simp only [Nat.cast_succ, hcast, ih t hm]
      rfl

theorem SplitAt_past_end (l : List α) (n : Int) (h : (l.length : Int) < n) :
    SplitAt n l = .error .emptyCollection := by
  induction l generalizing n with
  | nil =>
    rw [SplitAt.eq_def, if_neg (by simp at h; omega), if_neg (by simp at h; omega)]
  | cons a t ih =>
    rw [SplitAt.eq_def, if_neg (by simp at h; omega), if_neg (by simp at h; omega)]
    dsimp only
    rw [ih (n - 1) (by simp at h ⊢; omega)]

/-! ### Basic lemmas about the deque layer -/

namespace Deque

variable {α : Type}

theorem ToList_eq (d : Deque α) : d.ToList = d.front_ ++ d.back_.reverse := by
  simp [ToList, LinkedList.Append_eq_append, Reverse_eq_reverse]

theorem Length_eq (d : Deque α) :
    d.Length = d.front_.length + d.back_.length := by
  simp [Length, LinkedList.Length_eq_length]

theorem Length_eq_toList (d : Deque α) : d.Length = d.ToList.length := by
  simp [Length_eq, ToList_eq]

/-- The guard of `RebalancedIfNecessary` is a tautology: a deque is empty,
or has one side empty while non-empty (which is exactly `IsSingle()`), or
has both sides non-empty. The rebalancing branch is therefore dead code
and the function always returns its receiver unchanged. -/
theorem RebalancedIfNecessary_eq_ok (d : Deque α) :
    RebalancedIfNecessary d = .ok d := by
  obtain ⟨f, b⟩ := d
  rw [RebalancedIfNecessary]
  cases f <;> cases b <;> simp [IsEmpty, IsSingle, LinkedList.IsEmpty]

end Deque

namespace Deque

variable {α : Type}

theorem Index_eq_toList (d : Deque α) (i : Int) :
    d.Index i = LinkedList.Index d.ToList i := by
  obtain ⟨f, b⟩ := d
  rw [ToList_eq]
  by_cases hneg : i < 0
  · simp [Index, LinkedList.Index, hneg]
  · push_neg at hneg
    obtain ⟨n, rfl⟩ : ∃ n : Nat, i = (n : Int) :=
      ⟨i.toNat, (Int.toNat_of_nonneg hneg).symm⟩
    rw [Index, if_neg (by omega)]
    dsimp only
    rw [LinkedList.Length_eq_length, LinkedList.Length_eq_length]
    rcases Nat.lt_or_ge n f.length with hlt | hge
    · rw [if_pos (by exact_mod_cast hlt)]
      have h2 : n < (f ++ b.reverse).length := by simp; omega
      rw [LinkedList.Index_ok f n hlt, LinkedList.Index_ok _ n h2]
      congr 1
      simp only [List.get_eq_getElem]
      exact (List.getElem_append_left hlt).symm
    · rw [if_neg (by exact_mod_cast Nat.not_lt.mpr hge)]
      rcases Nat.lt_or_ge n (f.length + b.length) with hlt2 | hge2
      · have hm : n - f.length < b.length := by omega
        rw [if_pos (by omega)]
        have hcast : ((b.length : Int) - 1 - ((n : Int) - (f.length : Int))) =
            ((b.length - 1 - (n - f.length) : Nat) : Int) := by omega
        rw [hcast]
        have hb : b.length - 1 - (n - f.length) < b.length := by omega
        rw [LinkedList.Index_ok b _ hb]
        have h2 : n < (f ++ b.reverse).length := by simp; omega
        rw [LinkedList.Index_ok _ n h2]
        congr 1
        simp only [List.get_eq_getElem]
        rw [List.getElem_append_right (by omega)]
        rw [List.getElem_reverse]
      · rw [if_neg (by omega)]
        rw [LinkedList.Index, if_neg (by omega),
          LinkedList.IndexLoop_oob _ _ (by simp; omega)]

theorem FromList_map_ToList (l : List α) : (FromList l).map ToList = .ok l := by
  have hk : ((LinkedList.Length l : Int) / 2) = ((l.length / 2 : Nat) : Int) := by
    rw [LinkedList.Length_eq_length]; omega
  rw [FromList, hk, SplitAt_ok (l.length / 2) l (Nat.div_le_self _ _)]
  simp [Except.map, ToList_eq, Reverse_eq_reverse]

end Deque

/-- The deque `(front = [], back = [3, 1])` is reached from `Empty()` by
the operation sequence `Cons 1; Cons 2; Snoc 3; Tail`. -/
theorem reachable_unbalanced : Reachable (⟨[], [3, 1]⟩ : Deque Int) := by
  have h0 : Reachable (Deque.Empty : Deque Int) := Reachable.empty
  have h1 := Reachable.cons _ 1 h0
  have h2 := Reachable.cons _ 2 h1
  have h3 := Reachable.snoc _ 3 h2
  exact Reachable.tail _ _ h3 (by decide)

/-! ### Claim theorems -/

/-- C1: `LinkedList::Init` on the empty list does fail, but not with the
EmptyCollection error the spec prescribes: the loop body reads
`cur->value_.value()` on the disengaged optional of the empty node, so the
exception is `std::bad_optional_access`, unlike the explicit
`runtime_error` guards of `Head`/`Tail`/`Last`. The remaining parts of the
claim hold: `Init` of a one-element list is `Empty()` and `Init` of a list
of length at least two drops exactly the last element. -/
theorem init_empty_throws_bad_optional_access :
    LinkedList.Init ([] : List Int) = .error .badOptionalAccess ∧
    (Except.error CppError.badOptionalAccess : Except CppError (List Int)) ≠
      .error .emptyCollection ∧
    LinkedList.Init ([7] : List Int) = .ok [] ∧
    LinkedList.Init ([1, 2, 3] : List Int) = .ok [1, 2] := by
  refine ⟨rfl, by decide, rfl, by decide⟩

/-- C2: the balance invariant is violated on a reachable deque. Starting
from `Empty()` the sequence `Cons 1; Cons 2; Snoc 3; Tail` produces the
deque `(front = [], back = [3, 1])`, which has an empty side and two
elements: `RebalancedIfNecessary`'s guard is a tautology (`IsSingle()` is
true whenever exactly one side is empty), so its rebalancing branch never
runs. -/
theorem deque_balance_invariant_violated :
    ((((Deque.Empty : Deque Int).Cons 1).Cons 2).Snoc 3).Tail =
      .ok ⟨[], [3, 1]⟩ ∧
    Reachable (⟨[], [3, 1]⟩ : Deque Int) ∧
    ¬ Deque.BalanceInv (⟨[], [3, 1]⟩ : Deque Int) :=
  ⟨by decide, reachable_unbalanced, by decide⟩

/-- C3: the deque operations do not refine the list operations on all
reachable deques. The reachable deque `(front = [], back = [3, 1])` has
logical sequence `[1, 3]`, but `Tail` on it takes the
one-side-empty shortcut and returns `Empty()` (logical sequence `[]`),
whereas `Tail` of the list `[1, 3]` is `[3]`. -/
theorem deque_tail_diverges_from_list_tail :
    Reachable (⟨[], [3, 1]⟩ : Deque Int) ∧
    Deque.ToList (⟨[], [3, 1]⟩ : Deque Int) = [1, 3] ∧
    (Deque.Tail (⟨[], [3, 1]⟩ : Deque Int)).map Deque.ToList = .ok [] ∧
    LinkedList.Tail ([1, 3] : List Int) = .ok [3] ∧
    ([] : List Int) ≠ [3] :=
  ⟨reachable_unbalanced, rfl, rfl, rfl, by decide⟩

/-- C4: the list `Cons(3, Cons(2, Cons(1, Empty())))` — built by consing
3, then 2, then 1 onto the empty list — reads `[3, 2, 1]` left to right,
with `Index(0) == 3` and `Index(2) == 1`. -/
theorem cons_index_law :
    LinkedList.Cons 3 (LinkedList.Cons 2 (LinkedList.Cons 1
      (LinkedList.Empty : List Int))) = [3, 2, 1] ∧
    LinkedList.Index ([3, 2, 1] : List Int) 0 = .ok 3 ∧
    LinkedList.Index ([3, 2, 1] : List Int) 2 = .ok 1 := by
  refine ⟨rfl, by decide, by decide⟩

/-- C5: `SplitAt(n, list)` fails with IndexOutOfRange for `n < 0`,
returns `(Empty(), list)` for `n == 0`, returns the first `n` elements in
order and the remaining suffix for `0 ≤ n ≤ Length(list)`, and for
`n > Length(list)` recurses past the end until `Tail` is called on an
empty list, failing with the EmptyCollection error that `Tail` throws. -/
theorem splitAt_spec : ∀ (α : Type) (n : Int) (l : List α),
    (n < 0 → SplitAt n l = .error .indexOutOfRange) ∧
    (n = 0 → SplitAt n l = .ok (LinkedList.Empty, l)) ∧
    (∀ k : Nat, n = (k : Int) → k ≤ l.length →
      SplitAt n l = .ok (l.take k, l.drop k)) ∧
    ((l.length : Int) < n → SplitAt n l = .error .emptyCollection) := by
  intro α n l
  refine ⟨fun h => ?_, fun h => ?_, fun k hk hle => ?_,
    fun h => SplitAt_past_end l n h⟩
  · rw [SplitAt.eq_def, if_pos h]
  · subst h
    rw [SplitAt.eq_def]
    norm_num
  · subst hk
    exact SplitAt_ok k l hle

/-- Witness for C5, instantiating every hypothesis of `splitAt_spec` at
concrete inputs. -/
theorem splitAt_spec_witness :
    SplitAt (-1) ([9] : List Int) = .error .indexOutOfRange ∧
    SplitAt 0 ([9] : List Int) = .ok (LinkedList.Empty, [9]) ∧
    SplitAt 2 ([1, 2, 3] : List Int) = .ok ([1, 2], [3]) ∧
    SplitAt 5 ([1, 2] : List Int) = .error .emptyCollection :=
  ⟨(splitAt_spec Int (-1) [9]).1 (by decide),
   (splitAt_spec Int 0 [9]).2.1 rfl,
   (splitAt_spec Int 2 [1, 2, 3]).2.2.1 2 (by decide) (by decide),
   (splitAt_spec Int 5 [1, 2]).2.2.2 (by decide)⟩

/-- C6: `Deque.FromList(list).ToList() == list` for every finite list:
splitting at `Length(list) / 2`, reversing the second half into the back,
and rebuilding `front ++ Reverse(back)` reconstructs the sequence. -/
theorem fromList_toList_roundtrip : ∀ (α : Type) (l : List α),
    (Deque.FromList l).map Deque.ToList = .ok l := by
  intro α l
  exact Deque.FromList_map_ToList l

/-- C7: `Index` fails with IndexOutOfRange exactly on negative or
too-large indices and returns the 0-based element of the logical sequence
otherwise, on the list directly and on the deque through
`Deque::Index`'s front/back case split (the back side addressed at
`back_length - 1 - (i - front_length)`), which agrees with indexing the
logical sequence `ToList()` for every deque and every index. -/
theorem index_spec : ∀ (α : Type) (l : List α) (d : Deque α) (i : Int),
    (LinkedList.Index l i = .error .indexOutOfRange ↔
      i < 0 ∨ (l.length : Int) ≤ i) ∧
    (∀ (k : Nat) (h : k < l.length),
      LinkedList.Index l (k : Int) = .ok (l.get ⟨k, h⟩)) ∧
    d.Index i = LinkedList.Index d.ToList i ∧
    (d.Index i = .error .indexOutOfRange ↔
      i < 0 ∨ (d.Length : Int) ≤ i) := by
  intro α l d i
  refine ⟨LinkedList.Index_error_iff l i,
    fun k h => LinkedList.Index_ok l k h,
    Deque.Index_eq_toList d i, ?_⟩
  rw [Deque.Index_eq_toList d i, LinkedList.Index_error_iff,
    Deque.Length_eq_toList d]

/-- Witness for C7 at concrete inputs: index 1 of `[10, 20, 30]` is 20,
and indexing the deque `(front = [1], back = [3, 2])` agrees with
indexing its logical sequence `[1, 2, 3]` at index 2. -/
theorem index_spec_witness :
    LinkedList.Index ([10, 20, 30] : List Int) ((1 : Nat) : Int) = .ok 20 ∧
    Deque.Index (⟨[1], [3, 2]⟩ : Deque Int) 2 =
      LinkedList.Index ([1, 2, 3] : List Int) 2 :=
  ⟨(index_spec Int [10, 20, 30] ⟨[1], [3, 2]⟩ 2).2.1 1 (by decide),
   (index_spec Int [10, 20, 30] ⟨[1], [3, 2]⟩ 2).2.2.1⟩

/-- C8: `Init(Snoc(list, x)) == list` for every list, empty or not:
`Snoc` appends `x` at the end, making the receiver non-empty, and `Init`
then drops exactly that last element. -/
theorem init_snoc_inverse : ∀ (α : Type) (l : List α) (x : α),
    LinkedList.Init (LinkedList.Snoc l x) = .ok l := by
  intro α l x
  have hsnoc : LinkedList.Snoc l x = l ++ [x] := by
    rw [LinkedList.Snoc, LinkedList.Append_eq_append]
    rfl
  have hne : LinkedList.Snoc l x ≠ [] := by
    rw [hsnoc]
    simp
  rw [LinkedList.Init_of_ne_nil _ hne, hsnoc, List.dropLast_concat]

/-- C9: the empty list is a left and a right identity for `Append`. -/
theorem append_empty_identity : ∀ (α : Type) (l : List α),
    LinkedList.Append l LinkedList.Empty = l ∧
    LinkedList.Append LinkedList.Empty l = l := by
  intro α l
  constructor
  · rw [LinkedList.Append_eq_append, LinkedList.Empty, List.append_nil]
  · rfl

/-- C10: on every deque satisfying the balance invariant, `IsEmpty()`
holds exactly when the length is 0 and `IsSingle()` exactly when the
length is 1; and the `IsSingle()` shortcut (one side empty while
non-empty) is correct only under the invariant, as the invariant-violating
deque `(front = [], back = [4, 3])` shows. -/
theorem deque_isEmpty_isSingle_spec :
    (∀ (α : Type) (d : Deque α),
      (d.IsEmpty = true ↔ d.Length = 0) ∧
      (Deque.BalanceInv d → (d.IsSingle = true ↔ d.Length = 1))) ∧
    Deque.IsSingle (⟨[], [4, 3]⟩ : Deque Int) = true ∧
    Deque.Length (⟨[], [4, 3]⟩ : Deque Int) = 2 := by
  refine ⟨fun α d => ⟨?_, fun hinv => ?_⟩, by decide, by decide⟩
  · obtain ⟨f, b⟩ := d
    cases f <;> cases b <;>
      simp [Deque.IsEmpty, Deque.Length_eq, LinkedList.IsEmpty]
  · obtain ⟨f, b⟩ := d
    rw [Deque.BalanceInv, Deque.Length_eq] at hinv
    cases f <;> cases b <;>
      simp_all [Deque.IsSingle, Deque.IsEmpty, Deque.Length_eq,
        LinkedList.IsEmpty]
    all_goals omega

/-- Witness for C10: the balanced deque `(front = [5], back = [6])`
satisfies the invariant, and on it `IsSingle()` agrees with `Length == 1`. -/
theorem deque_isEmpty_isSingle_spec_witness :
    Deque.BalanceInv (⟨[5], [6]⟩ : Deque Int) ∧
    (Deque.IsSingle (⟨[5], [6]⟩ : Deque Int) = true ↔
      Deque.Length (⟨[5], [6]⟩ : Deque Int) = 1) :=
  ⟨by decide,
   (deque_isEmpty_isSingle_spec.1 Int ⟨[5], [6]⟩).2 (by decide)⟩
